import Mathlib

/-!
Verification development for the srbTranslit browser extension.

The embedding below translates the JavaScript sources
(src/srbtranslit.js, src/srbtranslitToCyr.js, src/background.js and the
popup script) into Lean definitions.  JavaScript strings are modelled as
Lean strings (all characters appearing in the replacement tables are in
the Basic Multilingual Plane, so one Lean character corresponds to one
UTF-16 code unit).  JavaScript objects used as string-keyed maps are
modelled as association lists with the JavaScript update semantics
(update in place, append when new).  Asynchronous platform APIs
(browser.permissions, browser.storage, browser.notifications) are
modelled by explicit parameters and explicit state passing.
-/

namespace SrbTranslit

/-- Models Array.prototype.join("") : concatenation of a list of strings. -/
def joinAll : List String → String
  | [] => ""
  | s :: rest => s ++ joinAll rest

/-- Models Array.prototype.join(".") : pieces joined with a dot. -/
def joinDot : List String → String
  | [] => ""
  | [s] => s
  | s :: rest => s ++ "." ++ joinDot rest

/-- Models String.prototype.split(".") on the character list of a string:
splitting on the dot character, keeping empty pieces. -/
def splitDot : List Char → List (List Char)
  | [] => [[]]
  | c :: cs =>
    match splitDot cs with
    | [] => [[]]
    | p :: ps => if c = '.' then [] :: p :: ps else (c :: p) :: ps

/-- String.prototype.split(".") as a function on strings. -/
def splitDotS (s : String) : List String :=
  (splitDot s.data).map (fun l => String.mk l)

/-- The whitespace characters removed by String.prototype.trim
(ECMAScript WhiteSpace and LineTerminator code points). -/
def jsWhitespaceChars : List Char :=
  [' ', '\t', '\n', '\x0b', '\x0c', '\r',
   '\u00A0', '\u1680', '\u2000', '\u2001', '\u2002', '\u2003', '\u2004',
   '\u2005', '\u2006', '\u2007', '\u2008', '\u2009', '\u200A',
   '\u2028', '\u2029', '\u202F', '\u205F', '\u3000', '\uFEFF']

/-- Whether a character is JavaScript whitespace. -/
def isJsWs (c : Char) : Bool := jsWhitespaceChars.contains c

/-- Models String.prototype.trim : strip leading and trailing whitespace. -/
def jsTrim (s : String) : String :=
  String.mk (((s.data.dropWhile isJsWs).reverse.dropWhile isJsWs).reverse)

/-- Models the JavaScript expression `v || fallback` where v is an optional
string property: undefined and the empty string are falsy. -/
def jsOr (v : Option String) (fallback : String) : String :=
  match v with
  | none => fallback
  | some s => if s = "" then fallback else s

/-- Property lookup in a JavaScript object literal used as a map, modelled
as first-match lookup in an association list (keys are unique). -/
def lookupTable (table : List (String × String)) (key : String) : Option String :=
  match table with
  | [] => none
  | (k, v) :: rest => if key = k then some v else lookupTable rest key

/-- The `replace` object literal of src/srbtranslit.js lines 3-85
(Cyrillic to Latin), transcribed entry for entry, in source order. -/
def replace : List (String × String) :=
  [("А", "A"), ("Б", "B"), ("В", "V"), ("Г", "G"), ("Д", "D"), ("Ђ", "Đ"),
   ("Е", "E"), ("Ж", "Ž"), ("З", "Z"), ("И", "I"), ("Ј", "J"), ("К", "K"),
   ("Л", "L"), ("Љ", "LJ"), ("М", "M"), ("Н", "N"), ("Њ", "NJ"), ("О", "O"),
   ("П", "P"), ("Р", "R"), ("С", "S"), ("Ш", "Š"), ("Т", "T"), ("Ћ", "Ć"),
   ("У", "U"), ("Ф", "F"), ("Х", "H"), ("Ц", "C"), ("Ч", "Č"), ("Џ", "DŽ"),
   ("а", "a"), ("б", "b"), ("в", "v"), ("г", "g"), ("д", "d"), ("ђ", "đ"),
   ("е", "e"), ("ж", "ž"), ("з", "z"), ("и", "i"), ("ј", "j"), ("к", "k"),
   ("л", "l"), ("љ", "lj"), ("м", "m"), ("н", "n"), ("њ", "nj"), ("о", "o"),
   ("п", "p"), ("р", "r"), ("с", "s"), ("ш", "š"), ("т", "t"), ("ћ", "ć"),
   ("у", "u"), ("ф", "f"), ("х", "h"), ("ц", "c"), ("ч", "č"), ("џ", "dž"),
   ("Ња", "Nja"), ("Ње", "Nje"), ("Њи", "Nji"), ("Њо", "Njo"), ("Њу", "Nju"),
   ("Ља", "Lja"), ("Ље", "Lje"), ("Љи", "Lji"), ("Љо", "Ljo"), ("Љу", "Lju"),
   ("Џа", "Dža"), ("Џе", "Dže"), ("Џи", "Dži"), ("Џо", "Džo"), ("Џу", "Džu"),
   (".срб", ".срб"), ("иѕ.срб", "иѕ.срб"), ("њњњ.из.срб", "њњњ.из.срб"),
   (".СРБ", ".СРБ"), ("ИЗ.СРБ", "ИЗ.СРБ"), ("ЊЊЊ.ИЗ.СРБ", "ЊЊЊ.ИЗ.СРБ")]

/-- The `replaceLatToCyr` object literal of src/srbtranslitToCyr.js
lines 4-82 (Latin to Cyrillic), transcribed entry for entry, in source
order: the multi-character keys first, then the single characters. -/
def replaceLatToCyr : List (String × String) :=
  [("Nja", "Ња"), ("Nje", "Ње"), ("Nji", "Њи"), ("Njo", "Њо"), ("Nju", "Њу"),
   ("Lja", "Ља"), ("Lje", "Ље"), ("Lji", "Љи"), ("Ljo", "Љо"), ("Lju", "Љу"),
   ("Dža", "Џа"), ("Dže", "Џе"), ("Dži", "Џи"), ("Džo", "Џо"), ("Džu", "Џу"),
   ("LJ", "Љ"), ("NJ", "Њ"), ("DŽ", "Џ"),
   ("nj", "њ"), ("lj", "љ"), ("dž", "џ"),
   ("A", "А"), ("B", "Б"), ("V", "В"), ("G", "Г"), ("D", "Д"), ("Đ", "Ђ"),
   ("E", "Е"), ("Ž", "Ж"), ("Z", "З"), ("I", "И"), ("J", "Ј"), ("K", "К"),
   ("L", "Л"), ("M", "М"), ("N", "Н"), ("O", "О"), ("P", "П"), ("R", "Р"),
   ("S", "С"), ("Š", "Ш"), ("T", "Т"), ("Ć", "Ћ"), ("U", "У"), ("F", "Ф"),
   ("H", "Х"), ("C", "Ц"), ("Č", "Ч"),
   ("a", "а"), ("b", "б"), ("v", "в"), ("g", "г"), ("d", "д"), ("đ", "ђ"),
   ("e", "е"), ("ž", "ж"), ("z", "з"), ("i", "и"), ("j", "ј"), ("k", "к"),
   ("l", "л"), ("m", "м"), ("n", "н"), ("o", "о"), ("p", "п"), ("r", "р"),
   ("s", "с"), ("š", "ш"), ("t", "т"), ("ć", "ћ"), ("u", "у"), ("f", "ф"),
   ("h", "х"), ("c", "ц"), ("č", "ч")]

/-- src/srbtranslit.js lines 115-120: `transliterate(word)` splits the
input into single UTF-16 code units, maps each unit through the
`replace` table (falling back to the unit itself when the table has no
entry or a falsy entry), and joins the results.  Note that the lookup
key is always a single code unit, so the multi-character keys of the
table can never match. -/
def transliterate (word : String) : String :=
  joinAll (word.data.map (fun ch =>
    jsOr (lookupTable replace (String.mk [ch])) (String.mk [ch])))

/-- src/srbtranslitToCyr.js lines 112-118: `transliterateToCyr(word)`,
the Latin to Cyrillic direction, same per-code-unit shape. -/
def transliterateToCyr (word : String) : String :=
  joinAll (word.data.map (fun ch =>
    jsOr (lookupTable replaceLatToCyr (String.mk [ch])) (String.mk [ch])))

/-! ### background.js : domain resolution and permission gatekeeper -/

/-- src/background.js lines 54-67: `registrableDomain(hostname)`.
Returns none for a falsy hostname (the JavaScript guard
`if (!hostname) return null`); otherwise splits on the dot, keeps a
hostname of at most two labels, returns the last three labels joined
with a dot when the last label has exactly two characters and the
second-to-last label is in the known second-level set, and the last two
labels otherwise.  The JavaScript Set.has test is modelled as list
membership. -/
def registrableDomain (hostname : String) : Option String :=
  if hostname = "" then none
  else
    let parts := splitDotS hostname
    if parts.length ≤ 2 then some hostname
    else
      let tld := parts.getD (parts.length - 1) ""
      let sld := parts.getD (parts.length - 2) ""
      let knownSecondLevel : List String := ["co", "com", "net", "org", "gov", "edu", "ac"]
      if tld.length = 2 ∧ sld ∈ knownSecondLevel then
        some (joinDot (parts.drop (parts.length - 3)))
      else
        some (joinDot (parts.drop (parts.length - 2)))

/-- Formalisation of claim C7 in the words of the specification, used to
compare against `registrableDomain` as translated from the source: the
hostname itself when it has at most 2 dot-separated labels; the last 3
labels joined by a dot when the last label is exactly 2 characters and
the second-to-last label is in the fixed set co, com, net, org, gov,
edu, ac; the last 2 labels joined by a dot otherwise. -/
def registrableDomainSpec (hostname : String) : String :=
  let labels := splitDotS hostname
  if labels.length ≤ 2 then hostname
  else if (labels.getLastD "").length = 2 ∧
          labels.getD (labels.length - 2) "" ∈
            (["co", "com", "net", "org", "gov", "edu", "ac"] : List String) then
    joinDot (labels.drop (labels.length - 3))
  else
    joinDot (labels.drop (labels.length - 2))

/-- src/background.js lines 78-84: `originPatternsForBase(base)` returns
the two origin patterns for a registrable domain, or the empty list for
a falsy base. -/
def originPatternsForBase (base : String) : List String :=
  if base = "" then []
  else ["*://" ++ base ++ "/*", "*://*." ++ base ++ "/*"]

/-- A JavaScript Promise as returned by the promise-based browser API:
a wrapper around the eventual value. -/
structure JsPromise (α : Type) where
  val : α
deriving DecidableEq

/-- JavaScript truthiness of a Promise object: every object is truthy,
whatever value it will resolve to. -/
def JsPromise.truthy {α : Type} (_ : JsPromise α) : Bool := true

/-- The platform call browser.permissions.contains, parameterised by the
current grant set (which origin patterns are granted).  It resolves to
true when every origin in the query is granted. -/
def permissionsContains (grants : String → Bool) (origins : List String) : JsPromise Bool :=
  ⟨origins.all grants⟩

/-- src/background.js lines 95-105: `hasOrigins(origins)`.  The source
iterates the origin patterns and runs
`const ok = browser.permissions.contains(origins: [o]); if (ok) return true;`
WITHOUT awaiting the promise, so `ok` is bound to the Promise object
itself, which is truthy regardless of the grant set; the loop therefore
returns true on the first origin whenever the list is non-empty. -/
def hasOrigins (grants : String → Bool) : List String → Bool
  | [] => false
  | o :: rest =>
    let ok := permissionsContains grants [o]
    if ok.truthy then true else hasOrigins grants rest

/-- The behaviour the doc comment of `hasOrigins` describes (true when
the extension has been granted any of the origins): what the code would
compute if the promise were awaited.  Used to state how far the code
diverges from the specification. -/
def hasOriginsIntended (grants : String → Bool) (origins : List String) : Bool :=
  origins.any (fun o => (permissionsContains grants [o]).val)

/-! ### background.js : rule store -/

/-- The two transliteration directions stored in rules. -/
inductive Direction where
  | lat_to_cyr
  | cyr_to_lat
deriving DecidableEq

/-- A stored rule: an object with a direction field. -/
structure Rule where
  direction : Direction
deriving DecidableEq

/-- Lookup in a JavaScript object used as a map with values of type α. -/
def jsLookup {α : Type} : List (String × α) → String → Option α
  | [], _ => none
  | (k, v) :: rest, key => if key = k then some v else jsLookup rest key

/-- JavaScript property assignment `obj[key] = v`: updates the entry in
place when the key exists, appends it otherwise (insertion order). -/
def jsSet {α : Type} : List (String × α) → String → α → List (String × α)
  | [], key, v => [(key, v)]
  | (k, w) :: rest, key, v =>
    if k = key then (k, v) :: rest else (k, w) :: jsSet rest key v

/-- JavaScript `delete obj[key]`. -/
def jsDelete {α : Type} : List (String × α) → String → List (String × α)
  | [], _ => []
  | (k, w) :: rest, key =>
    if k = key then rest else (k, w) :: jsDelete rest key

/-- The persisted `enabledDomains` storage key: absent, the legacy array
of domain strings, or the current map form. -/
inductive StoredED where
  | absent
  | legacy (domains : List String)
  | mapForm (entries : List (String × Rule))
deriving DecidableEq

/-- src/background.js lines 264-274: `getEnabledMap()`.  Reads the
`enabledDomains` storage key and returns the rule map: a legacy array is
converted in memory, entry by entry, to the map form with direction
lat_to_cyr; a map is returned as is; an absent key yields the empty
map.  The function only reads storage, so the second component (the
storage state after the call) is always the input state. -/
def getEnabledMap : StoredED → List (String × Rule) × StoredED
  | StoredED.absent => ([], StoredED.absent)
  | StoredED.legacy ds =>
    (ds.foldl (fun m d => jsSet m d ⟨Direction.lat_to_cyr⟩) [], StoredED.legacy ds)
  | StoredED.mapForm m => (m, StoredED.mapForm m)

/-- src/background.js lines 284-286: `setEnabledMap(map)` persists the
map form. -/
def setEnabledMap (m : List (String × Rule)) : StoredED :=
  StoredED.mapForm m

/-- Models `host.endsWith(suffix)` on the underlying code units. -/
def jsEndsWith (s suffix : String) : Bool :=
  suffix.data.isSuffixOf s.data

/-- Normalises the result of getHostname through a JavaScript truthiness
test: null and the empty string are both falsy. -/
def jsTruthyStr : Option String → Option String
  | some "" => none
  | o => o

/-- The scan of src/background.js lines 292-297: first entry of the map
whose key equals the host or of which the host is a dot-suffix. -/
def findRuleIn : List (String × Rule) → String → Option (String × Rule)
  | [], _ => none
  | (k, r) :: rest, host =>
    if host = k || jsEndsWith host ("." ++ k) then some (k, r)
    else findRuleIn rest host

/-- src/background.js lines 288-298: `findRuleForUrl(url)`.  The URL
parser (`new URL`) is a platform API, modelled by the parameter
getHost; a null or empty hostname means no rule. -/
def findRuleForUrl (getHost : String → Option String) (st : StoredED) (url : String) :
    Option (String × Rule) :=
  match jsTruthyStr (getHost url) with
  | none => none
  | some host => findRuleIn (getEnabledMap st).1 host

/-- src/background.js lines 316-332: `migrateRuleKeyIfNeeded(url)`.
Computes the registrable domain desired for the hostname of the URL;
when a rule matches under a different key, copies it to the desired key,
deletes the old key and persists; returns the match (under its possibly
corrected key) together with the storage state after the call. -/
def migrateRuleKeyIfNeeded (getHost : String → Option String) (st : StoredED) (url : String) :
    Option (String × Rule) × StoredED :=
  let host := jsTruthyStr (getHost url)
  let desired := match host with
    | none => none
    | some h => registrableDomain h
  match host, desired with
  | some _, some d =>
    match findRuleForUrl getHost st url with
    | none => (none, st)
    | some (key, rule) =>
      if key = d then (some (key, rule), st)
      else
        let m := (getEnabledMap st).1
        (some (d, rule), setEnabledMap (jsDelete (jsSet m d rule) key))
  | _, _ => (none, st)

/-! ### background.js : notification throttle -/

/-- JavaScript truthiness of an optional number: undefined and 0 are
falsy. -/
def jsTruthyNum : Option Int → Bool
  | none => false
  | some n => n ≠ 0

/-- src/background.js lines 166-194: `shouldNotifyForBase(base)`.
Takes the grant set, the current clock (milliseconds), and the persisted
`notifiedMissingPermission` map; returns the decision and the map after
the call.  When `hasOrigins` reports permission, returns false after
clearing a truthy throttle entry; otherwise returns true and records the
current time when more than 6 hours have passed since the stored
timestamp (0 when absent), and false without a write otherwise. -/
def shouldNotifyForBase (grants : String → Bool) (now : Int)
    (notified : List (String × Int)) (base : String) :
    Bool × List (String × Int) :=
  let hasPerm := hasOrigins grants (originPatternsForBase base)
  if hasPerm then
    (false, if jsTruthyNum (jsLookup notified base) then jsDelete notified base else notified)
  else
    let last : Int := (jsLookup notified base).getD 0
    if now - last > 6 * 60 * 60 * 1000 then
      (true, jsSet notified base now)
    else
      (false, notified)

/-- Effects a run of the auto-apply controller can perform: creating the
missing-permission notification, or injecting a content script with a
direction into a tab. -/
inductive Effect where
  | notifyMissing (base : String)
  | inject (tabId : Nat) (direction : Direction)
deriving DecidableEq

/-- src/background.js lines 207-224: `notifyMissingPermission(base)`.
Consults `shouldNotifyForBase` and creates the notification when it
answers true. -/
def notifyMissingPermission (grants : String → Bool) (now : Int)
    (notified : List (String × Int)) (base : String) :
    List Effect × List (String × Int) :=
  let (ok, notified2) := shouldNotifyForBase grants now notified base
  if ok then ([Effect.notifyMissing base], notified2) else ([], notified2)

/-! ### background.js : auto-apply controller -/

/-- The fields of a webNavigation event used by the controller. -/
structure NavDetails where
  frameId : Nat
  url : String
  tabId : Nat
deriving DecidableEq

/-- The persisted state the controller touches: the enabledDomains
storage key and the notification throttle map. -/
structure BgState where
  enabled : StoredED
  notified : List (String × Int)
deriving DecidableEq

/-- src/background.js lines 628-662: `maybeAutoTransliterate(details)`.
Sub-frame events (frameId other than 0) return immediately.  The rule is
resolved through `migrateRuleKeyIfNeeded` falling back to
`findRuleForUrl`.  With no match nothing further happens.  With a match
the registrable domain of the hostname is computed and `hasOrigins` is
consulted on its origin patterns; a negative answer calls
`notifyMissingPermission` and stops, a positive one injects the content
script for the direction of the rule into the tab of the event. -/
def maybeAutoTransliterate (getHost : String → Option String) (grants : String → Bool)
    (now : Int) (st : BgState) (details : NavDetails) :
    List Effect × BgState :=
  if details.frameId ≠ 0 then ([], st)
  else
    let (mig, enabled2) := migrateRuleKeyIfNeeded getHost st.enabled details.url
    let mtch := match mig with
      | some m => some m
      | none => findRuleForUrl getHost enabled2 details.url
    match mtch with
    | none => ([], { st with enabled := enabled2 })
    | some (_, rule) =>
      let base := match jsTruthyStr (getHost details.url) with
        | none => none
        | some h => registrableDomain h
      let hasPerm := hasOrigins grants (originPatternsForBase (base.getD ""))
      if hasPerm then
        ([Effect.inject details.tabId rule.direction], { st with enabled := enabled2 })
      else
        let (effs, notified2) :=
          notifyMissingPermission grants now st.notified (base.getD "")
        (effs, { enabled := enabled2, notified := notified2 })

/-! ### background.js : rule upsert and removal -/

/-- The base key an operation on a tab resolves: the registrable domain
of the hostname of the tab URL, none when the tab, its URL, or the
hostname is missing or empty. -/
def tabBase (getHost : String → Option String) (tab : Option String) : Option String :=
  match tab with
  | none => none
  | some url =>
    if url = "" then none
    else
      match getHost url with
      | none => none
      | some h => registrableDomain h

/-- src/background.js lines 349-368: `upsertRuleForTab(tab, desired, options)`.
The tab is modelled by its optional URL; `desired` is the optional
desired direction (absent and empty are falsy); `granted` stands for the
outcome of `ensurePermissionForBase` in the requirePermission branch
(that call touches only the permission and throttle state, never the
enabledDomains key).  When a base is resolved and permission is not
demanded-and-denied, the rule map is read, the entry for the base is
written with the desired direction (falling back to the stored direction
and then to lat_to_cyr), and the map form is persisted. -/
def upsertRuleForTab (getHost : String → Option String) (tab : Option String)
    (desired : Option Direction) (requirePermission granted : Bool)
    (st : StoredED) : StoredED :=
  match tab with
  | none => st
  | some url =>
    if url = "" then st
    else
      let base := match getHost url with
        | none => none
        | some h => registrableDomain h
      match base with
      | none => st
      | some b =>
        if requirePermission ∧ granted = false then st
        else
          let m := (getEnabledMap st).1
          let dir := desired.getD (((jsLookup m b).map Rule.direction).getD Direction.lat_to_cyr)
          setEnabledMap (jsSet m b ⟨dir⟩)

/-- src/background.js lines 380-392: `removeRuleForTab(tab)`.  Deletes
the entry for the registrable domain of the tab URL and persists the map
form; does nothing when the tab, URL, or base is missing. -/
def removeRuleForTab (getHost : String → Option String) (tab : Option String)
    (st : StoredED) : StoredED :=
  match tab with
  | none => st
  | some url =>
    if url = "" then st
    else
      let base := match getHost url with
        | none => none
        | some h => registrableDomain h
      match base with
      | none => st
      | some b =>
        setEnabledMap (jsDelete (getEnabledMap st).1 b)

/-- Lookup of a rule in the persisted enabledDomains state, through the
map view that `getEnabledMap` provides. -/
def edLookup (st : StoredED) (key : String) : Option Rule :=
  jsLookup (getEnabledMap st).1 key

/-! ### The DOM pass of the content scripts

A document is modelled as a tree of element nodes (with a tag and a list
of child nodes) and text nodes.  In DOM terms, `children` of an element
are its element children only, while `childNodes` are all children;
`nodeValue` is the text of a text node and null for an element (the
property is defined on every node, so a `typeof x.nodeValue` test never
yields undefined); `textContent` of an element concatenates the text of
all its descendants in order. -/

inductive DomNode where
  | element (tag : String) (children : List DomNode)
  | text (value : String)

/-- Whether a node is an element. -/
def DomNode.isElem : DomNode → Bool
  | DomNode.element _ _ => true
  | DomNode.text _ => false

/-- The element children of a child list (the DOM `children`
collection). -/
def childElems (cs : List DomNode) : List DomNode :=
  cs.filter DomNode.isElem

mutual

/-- The DOM textContent getter. -/
def textContent : DomNode → String
  | DomNode.text v => v
  | DomNode.element _ cs => textContentList cs

/-- textContent over a child list, in order. -/
def textContentList : List DomNode → String
  | [] => ""
  | n :: rest => textContent n ++ textContentList rest

end

/-- The filter of `getElementsWithNoChildren` (src/srbtranslit.js lines
98-111 and src/srbtranslitToCyr.js lines 95-108): keep an element when
it has no element children; otherwise run over its childNodes and set
the flag when a child has a defined nodeValue property, which holds of
every DOM node (nodeValue is null, not undefined, for elements), so the
flag is set exactly when the element has any child node. -/
def elemFilter : DomNode → Bool
  | DomNode.text _ => false
  | DomNode.element _ cs =>
    if (childElems cs).length = 0 then true
    else !cs.isEmpty

mutual

/-- The per-document transliteration pass of `srbTranslit()`
(src/srbtranslit.js lines 128-144 and src/srbtranslitToCyr.js lines
126-142), over the list of elements that `getElementsWithNoChildren`
returns for the whole document.  The source iterates that element list
in document order and mutates: an element without element children gets
its whole textContent replaced through the transliteration function when
it is non-empty; an element with element children has the `iterator`
applied to each of its direct child nodes, replacing the nodeValue of
each text node that is non-empty and does not trim to whitespace.
Mutations performed for distinct elements touch disjoint nodes (an
element without element children has no element descendants, and the
iterator of an element only rewrites its direct text children), so the
document-order iteration is expressed as this equivalent recursive
traversal that applies the same per-element action at every element of
the tree. -/
def srbTranslitPass (tr : String → String) : DomNode → DomNode
  | DomNode.text v => DomNode.text v
  | DomNode.element tag cs =>
    if elemFilter (DomNode.element tag cs) then
      if (childElems cs).length = 0 then
        let tc := textContent (DomNode.element tag cs)
        if tc ≠ "" then DomNode.element tag [DomNode.text (tr tc)]
        else DomNode.element tag cs
      else
        DomNode.element tag (passChildNodes tr cs)
    else
      DomNode.element tag (passSkipped tr cs)

/-- The `iterator` of the content scripts applied to every direct child
node: a text node whose value is truthy and does not trim to the empty
string is replaced by its transliteration, any other text node is kept;
an element child is handled by its own round of the element loop. -/
def passChildNodes (tr : String → String) : List DomNode → List DomNode
  | [] => []
  | DomNode.text v :: rest =>
    (if v ≠ "" ∧ jsTrim v ≠ "" then DomNode.text (tr v) else DomNode.text v)
      :: passChildNodes tr rest
  | DomNode.element t cs :: rest =>
    srbTranslitPass tr (DomNode.element t cs) :: passChildNodes tr rest

/-- Children of an element the filter rejected: the element itself is
not acted on, but its descendants are still in the element list and are
processed on their own. -/
def passSkipped (tr : String → String) : List DomNode → List DomNode
  | [] => []
  | n :: rest => srbTranslitPass tr n :: passSkipped tr rest

end

mutual

/-- Formalisation of the amended claim C3 in its own words, to be
compared with `srbTranslitPass` as translated from the source: the pass
rewrites eligible text with no regard to the ancestor tag.  An element
without element children whose text content is non-empty has that whole
content replaced by its transliteration, its text children collapsed
into a single text node; with empty text content it is untouched.  An
element with element children keeps its structure, handling each direct
child through `specChildNodes`. -/
def passSpec (tr : String → String) : DomNode → DomNode
  | DomNode.text v => DomNode.text v
  | DomNode.element tag cs =>
    if cs.any DomNode.isElem = false then
      if textContent (DomNode.element tag cs) = "" then DomNode.element tag cs
      else DomNode.element tag [DomNode.text (tr (textContent (DomNode.element tag cs)))]
    else
      DomNode.element tag (specChildNodes tr cs)

/-- The per-child clause of the amended claim C3: a direct text child
whose content trims to empty is left unchanged, every other direct text
child has its content replaced in place, and element children are
processed recursively. -/
def specChildNodes (tr : String → String) : List DomNode → List DomNode
  | [] => []
  | DomNode.text v :: rest =>
    (if jsTrim v = "" then DomNode.text v else DomNode.text (tr v))
      :: specChildNodes tr rest
  | DomNode.element t cs :: rest =>
    passSpec tr (DomNode.element t cs) :: specChildNodes tr rest

end

/-- src/background.js lines 12-28: `execute(tab, direction)` chooses the
content script by direction; running it applies the corresponding
transliteration function to the document.  This maps a direction to that
function. -/
def transliterateDir : Direction → String → String
  | Direction.cyr_to_lat => transliterate
  | Direction.lat_to_cyr => transliterateToCyr

/-! ### Helper lemmas -/

lemma str_empty_append (s : String) : "" ++ s = s := by
  cases s
  rfl

lemma str_append_empty (s : String) : s ++ "" = s := by
  cases s with
  | mk d =>
    show String.mk (d ++ []) = String.mk d
    rw [List.append_nil]

lemma str_append_assoc (a b c : String) : a ++ b ++ c = a ++ (b ++ c) := by
  cases a with
  | mk x =>
    cases b with
    | mk y =>
      cases c with
      | mk z =>
        show String.mk (x ++ y ++ z) = String.mk (x ++ (y ++ z))
        rw [List.append_assoc]

lemma joinAll_append (l₁ l₂ : List String) :
    joinAll (l₁ ++ l₂) = joinAll l₁ ++ joinAll l₂ := by
  induction l₁ with
  | nil => rw [List.nil_append, joinAll, str_empty_append]
  | cons s rest ih => rw [List.cons_append, joinAll, joinAll, ih, str_append_assoc]

/-- One code unit whose lookup misses maps to itself, so a string of
unmapped units is reassembled unchanged. -/
lemma joinAll_map_unmapped (T : List (String × String)) :
    ∀ l : List Char, (∀ c ∈ l, lookupTable T (String.mk [c]) = none) →
      joinAll (l.map (fun ch => jsOr (lookupTable T (String.mk [ch])) (String.mk [ch])))
        = String.mk l := by
  intro l
  induction l with
  | nil => intro _; rfl
  | cons c rest ih =>
    intro h
    have hc : lookupTable T (String.mk [c]) = none := h c (List.mem_cons_self c rest)
    have hr := ih (fun x hx => h x (List.mem_cons_of_mem c hx))
    rw [List.map_cons, joinAll, hc, hr]
    rfl

lemma transliterate_unmapped (s : String)
    (h : ∀ c ∈ s.data, lookupTable replace (String.mk [c]) = none) :
    transliterate s = s := by
  rw [transliterate, joinAll_map_unmapped replace s.data h]

lemma transliterateToCyr_unmapped (s : String)
    (h : ∀ c ∈ s.data, lookupTable replaceLatToCyr (String.mk [c]) = none) :
    transliterateToCyr s = s := by
  rw [transliterateToCyr, joinAll_map_unmapped replaceLatToCyr s.data h]

/-- No JavaScript whitespace character is a key of either replacement
table. -/
lemma ws_unmapped (c : Char) (h : isJsWs c = true) :
    lookupTable replace (String.mk [c]) = none
  ∧ lookupTable replaceLatToCyr (String.mk [c]) = none := by
  have hm : c ∈ jsWhitespaceChars := List.elem_iff.mp h
  fin_cases hm <;> exact ⟨by decide, by decide⟩

lemma getLastD_eq_getD_aux :
    ∀ (as : List String) (a d : String), as.getLastD a = (a :: as).getD as.length d
  | [], _, _ => rfl
  | b :: t, a, d => by
    rw [List.getLastD_cons]
    exact getLastD_eq_getD_aux t b d

lemma getLastD_eq_getD (l : List String) (d : String) :
    l.getLastD d = l.getD (l.length - 1) d := by
  cases l with
  | nil => rfl
  | cons a as =>
    rw [List.getLastD_cons]
    exact getLastD_eq_getD_aux as a d

lemma jsLookup_jsSet_ne {α : Type} (m : List (String × α)) (b k : String) (v : α)
    (h : k ≠ b) : jsLookup (jsSet m b v) k = jsLookup m k := by
  induction m with
  | nil => simp [jsSet, jsLookup, h]
  | cons p rest ih =>
    obtain ⟨k0, v0⟩ := p
    by_cases hk : k0 = b
    · subst hk
      simp [jsSet, jsLookup, h]
    · simp [jsSet, jsLookup, hk, ih]

lemma jsLookup_jsDelete_ne {α : Type} (m : List (String × α)) (b k : String)
    (h : k ≠ b) : jsLookup (jsDelete m b) k = jsLookup m k := by
  induction m with
  | nil => rfl
  | cons p rest ih =>
    obtain ⟨k0, v0⟩ := p
    by_cases hk : k0 = b
    · subst hk
      simp [jsDelete, jsLookup, h]
    · simp [jsDelete, jsLookup, hk, ih]

lemma textContent_single (tag s : String) :
    textContent (DomNode.element tag [DomNode.text s]) = s := by
  show textContentList [DomNode.text s] = s
  show textContent (DomNode.text s) ++ textContentList [] = s
  show s ++ "" = s
  exact str_append_empty s

/-- The childless test of the source (the `children` collection is
empty) matches the wording of the amended claim (no child is an
element). -/
lemma childElems_len_zero_iff (cs : List DomNode) :
    (childElems cs).length = 0 ↔ cs.any DomNode.isElem = false := by
  rw [childElems, List.length_eq_zero, List.filter_eq_nil_iff, List.any_eq_false]

/-- The filter of getElementsWithNoChildren keeps every element: one
without element children by the first test, and one with element
children because it then has child nodes, each of which has a defined
nodeValue property. -/
lemma elemFilter_elem (tag : String) (cs : List DomNode) :
    elemFilter (DomNode.element tag cs) = true := by
  cases cs with
  | nil => rfl
  | cons a l =>
    rw [elemFilter]
    by_cases hc : (childElems (a :: l)).length = 0
    · rw [if_pos hc]
    · rw [if_neg hc]
      rfl

/-- A string with a non-empty trim is itself non-empty, so the truthy
test of the iterator is subsumed by its trim test. -/
lemma jsTrim_ne_empty_imp (v : String) (h : jsTrim v ≠ "") : v ≠ "" := by
  intro he
  subst he
  exact h rfl

mutual

/-- The source pass agrees with the transcription of the amended claim
C3 on every document. -/
theorem pass_eq_passSpec (tr : String → String) :
    ∀ n : DomNode, srbTranslitPass tr n = passSpec tr n
  | DomNode.text _ => rfl
  | DomNode.element tag cs => by
    by_cases hc : (childElems cs).length = 0
    · have hs : cs.any DomNode.isElem = false := (childElems_len_zero_iff cs).mp hc
      by_cases ht : textContent (DomNode.element tag cs) = ""
      · simp [srbTranslitPass, passSpec, elemFilter_elem, hc, hs, ht]
      · simp [srbTranslitPass, passSpec, elemFilter_elem, hc, hs, ht]
    · have hs : ¬cs.any DomNode.isElem = false :=
        fun h => hc ((childElems_len_zero_iff cs).mpr h)
      simp only [srbTranslitPass, passSpec, elemFilter_elem, if_true, hc, hs, if_false]
      exact congrArg (DomNode.element tag) (passChildNodes_eq_spec tr cs)

/-- The iterator of the source agrees with the per-child clause of the
amended claim C3 on every child list. -/
theorem passChildNodes_eq_spec (tr : String → String) :
    ∀ cs : List DomNode, passChildNodes tr cs = specChildNodes tr cs
  | [] => rfl
  | DomNode.text v :: rest => by
    by_cases htr : jsTrim v = ""
    · have hcond : ¬(v ≠ "" ∧ jsTrim v ≠ "") := fun hh => hh.2 htr
      rw [passChildNodes, specChildNodes, if_pos htr, if_neg hcond,
        passChildNodes_eq_spec tr rest]
    · have hv : v ≠ "" := jsTrim_ne_empty_imp v htr
      rw [passChildNodes, specChildNodes, if_neg htr, if_pos (And.intro hv htr),
        passChildNodes_eq_spec tr rest]
  | DomNode.element t cs0 :: rest => by
    rw [passChildNodes, specChildNodes, pass_eq_passSpec tr (DomNode.element t cs0),
      passChildNodes_eq_spec tr rest]

end

/-! ### Claim theorems -/

/-- C1: the claim states that both directions apply the multi-character
sequence table before the single-character table, so that a digraph such
as nj is replaced as one unit and never letter-by-letter.  The code
splits the input into single code units before the lookup, so the
multi-character keys present in both tables can never match: the digraph
entries are dead and every digraph is transliterated letter-by-letter
through the single-character entries.  Evaluation at the failing inputs:
the Latin digraph nj maps to U+043D U+0458 (н followed by ј) instead of
the single grapheme U+045A (њ) even though the table carries the entry
for nj, and the Cyrillic input Ња maps to NJa instead of the cased
digraph Nja carried by its table. -/
theorem C1_digraph_bypassed :
    transliterateToCyr "nj" = "нј"
  ∧ lookupTable replaceLatToCyr "nj" = some "њ"
  ∧ ("нј" : String) ≠ "њ"
  ∧ transliterate "Ња" = "NJa"
  ∧ lookupTable replace "Ња" = some "Nja"
  ∧ ("NJa" : String) ≠ "Nja" := by
  refine ⟨by decide, by decide, by decide, by decide, by decide, by decide⟩

/-- C2: the claim states that the access check is true if and only if at
least one of the two origin patterns of the domain is granted, and in
particular false when neither is granted.  The source never awaits
browser.permissions.contains, so the tested value is a Promise object,
which is truthy, and the check answers true for every domain with a
non-empty pattern list: with an empty grant set the check still returns
true, while the awaited computation the doc comment of hasOrigins
describes returns false. -/
theorem C2_hasOrigins_always_true :
    hasOrigins (fun _ => false) (originPatternsForBase "example.com") = true
  ∧ hasOriginsIntended (fun _ => false) (originPatternsForBase "example.com") = false
  ∧ originPatternsForBase "example.com"
      = ["*://example.com/*", "*://*.example.com/*"] := by
  refine ⟨by decide, by decide, by decide⟩

/-- C3 counterexample: the claim states that a transliteration pass
never rewrites text whose nearest element ancestor is a script
container, and that every remaining text node has its content replaced
in place, preserving node identity with no DOM restructuring.  Both
parts fail at concrete inputs.  First, the element filter of the
content scripts keeps every element (a script element has no element
children) and the loop has no tag test at all, so on a document whose
only text is the script body nj the pass run in the Latin-to-Cyrillic
direction rewrites that body.  Second, an element whose two children
are both text nodes takes the childless branch, which assigns the whole
textContent back: the two text nodes are collapsed into a single fresh
one, restructuring the children rather than replacing each text node in
place. -/
theorem C3_script_text_rewritten :
    srbTranslitPass (transliterateDir Direction.lat_to_cyr)
        (DomNode.element "html" [DomNode.element "script" [DomNode.text "nj"]])
      = DomNode.element "html" [DomNode.element "script" [DomNode.text "нј"]]
  ∧ ("нј" : String) ≠ "nj"
  ∧ srbTranslitPass (transliterateDir Direction.lat_to_cyr)
        (DomNode.element "b" [DomNode.text "x", DomNode.text "y"])
      = DomNode.element "b" [DomNode.text "xy"]
  ∧ DomNode.element "b" [DomNode.text "xy"]
      ≠ DomNode.element "b" [DomNode.text "x", DomNode.text "y"] := by
  refine ⟨rfl, by decide, rfl, ?_⟩
  intro h
  injection h with h1 h2
  simp at h2

/-- C3 amended: a transliteration pass rewrites eligible text with no
regard to the ancestor tag (script, style, noscript, textarea and
editable containers are not skipped).  An element without element
children whose text content is non-empty has that whole content
replaced by its transliteration, its text children collapsed into a
single text node, and is untouched when its text content is empty; an
element with element children keeps its structure: each direct text
child whose content trims to empty is left unchanged, every other
direct text child has its content replaced in place, and element
children are processed recursively.  Proved for every transliteration
function and every document: the source pass coincides with `passSpec`,
the transcription of this amended wording. -/
theorem C3_pass_ignores_tag :
    ∀ (tr : String → String) (n : DomNode), srbTranslitPass tr n = passSpec tr n :=
  fun tr n => pass_eq_passSpec tr n

/-- C3 amended, evaluated at a concrete input: a style element with a
text child and an element child, run in the Latin-to-Cyrillic
direction. -/
theorem C3_pass_ignores_tag_witness :
    srbTranslitPass (transliterateDir Direction.lat_to_cyr)
        (DomNode.element "style" [DomNode.text "nj", DomNode.element "b" [DomNode.text " "]])
      = passSpec (transliterateDir Direction.lat_to_cyr)
          (DomNode.element "style" [DomNode.text "nj", DomNode.element "b" [DomNode.text " "]]) :=
  C3_pass_ignores_tag (transliterateDir Direction.lat_to_cyr)
    (DomNode.element "style" [DomNode.text "nj", DomNode.element "b" [DomNode.text " "]])

/-- C4: the claim states that when a rule matches but no permission is
granted for its registrable domain, notifyMissing is called and no
injection occurs, and that injection runs only when access is present.
Because hasOrigins never awaits the platform promise, the permission
check inside the controller answers true for every resolved base, so
with a rule for primer.rs and an empty grant set the controller still
injects into the tab and the notify branch is unreachable.  The first
conjunct evaluates the controller at that failing input: the effect list
is exactly one injection and the throttle map stays empty.  The second
and third conjuncts record the parts of the claim the code does honour:
a sub-frame event does nothing, and a URL matched by no rule produces no
effect. -/
theorem C4_injects_without_permission :
    maybeAutoTransliterate
        (fun u => if u = "https://news.primer.rs/x" then some "news.primer.rs" else none)
        (fun _ => false) 0
        ⟨StoredED.mapForm [("primer.rs", ⟨Direction.lat_to_cyr⟩)], []⟩
        ⟨0, "https://news.primer.rs/x", 7⟩
      = ([Effect.inject 7 Direction.lat_to_cyr],
         ⟨StoredED.mapForm [("primer.rs", ⟨Direction.lat_to_cyr⟩)], []⟩)
  ∧ maybeAutoTransliterate
        (fun u => if u = "https://news.primer.rs/x" then some "news.primer.rs" else none)
        (fun _ => false) 0
        ⟨StoredED.mapForm [("primer.rs", ⟨Direction.lat_to_cyr⟩)], []⟩
        ⟨1, "https://news.primer.rs/x", 7⟩
      = ([], ⟨StoredED.mapForm [("primer.rs", ⟨Direction.lat_to_cyr⟩)], []⟩)
  ∧ maybeAutoTransliterate
        (fun u => if u = "https://other.example/" then some "other.example" else none)
        (fun _ => false) 0
        ⟨StoredED.mapForm [("primer.rs", ⟨Direction.lat_to_cyr⟩)], []⟩
        ⟨0, "https://other.example/", 7⟩
      = ([], ⟨StoredED.mapForm [("primer.rs", ⟨Direction.lat_to_cyr⟩)], []⟩) := by
  refine ⟨by decide, by decide, by decide⟩

/-- C5: the claim states that for a domain lacking permission the
throttle returns true and records the time exactly when no entry exists
or more than 6 hours have passed, so the first call for a fresh domain
must return true.  Because hasOrigins reports permission as granted for
every domain (the un-awaited promise is truthy), shouldNotifyForBase
takes the has-permission branch even with an empty grant set and returns
false without recording anything: the very first call for primer.rs with
no stored entry answers false, against the claimed true. -/
theorem C5_first_call_returns_false :
    shouldNotifyForBase (fun _ => false) 1000 [] "primer.rs" = (false, [])
  ∧ hasOriginsIntended (fun _ => false) (originPatternsForBase "primer.rs") = false := by
  refine ⟨by decide, by decide⟩

/-- C6 counterexample: the claim states that reading the legacy array
form persists the store back in map form on that first read.  The read
path of getEnabledMap only converts in memory and never writes, so after
reading the legacy array a.rs, b.rs the store still holds the legacy
array and not the migrated map. -/
theorem C6_legacy_not_persisted :
    (getEnabledMap (StoredED.legacy ["a.rs", "b.rs"])).2 = StoredED.legacy ["a.rs", "b.rs"]
  ∧ StoredED.legacy ["a.rs", "b.rs"]
      ≠ StoredED.mapForm [("a.rs", ⟨Direction.lat_to_cyr⟩), ("b.rs", ⟨Direction.lat_to_cyr⟩)] := by
  refine ⟨by decide, by decide⟩

/-- C6 amended: reading the store in the legacy array form yields, in
memory, the map assigning direction lat_to_cyr to exactly those domains,
but the store is not written back at read time (it keeps the legacy form
until some later write persists the map form); reading a store already
in map form returns it unchanged, and no read ever modifies the store,
so re-reading is a no-op in either form. -/
theorem C6_migration_value_level :
    (getEnabledMap (StoredED.legacy ["a.rs", "b.rs"])).1
        = [("a.rs", ⟨Direction.lat_to_cyr⟩), ("b.rs", ⟨Direction.lat_to_cyr⟩)]
  ∧ (∀ st : StoredED, (getEnabledMap st).2 = st)
  ∧ (∀ m : List (String × Rule), getEnabledMap (StoredED.mapForm m) = (m, StoredED.mapForm m)) := by
  refine ⟨by decide, ?_, fun m => rfl⟩
  intro st
  cases st <;> rfl

/-- C7: the claim states the exact shape of registrableDomain: a
hostname of at most 2 labels is returned as is, the last 3 labels are
returned when the last label has exactly 2 characters and the
second-to-last label is in the fixed second-level set, and the last 2
labels otherwise; with the three concrete examples.  The first conjunct
proves the translated source function equal, on every non-empty
hostname, to a definition transcribed from the words of the claim, and
the remaining conjuncts evaluate the three examples. -/
theorem C7_registrableDomain_matches_spec :
    (∀ h : String, h ≠ "" → registrableDomain h = some (registrableDomainSpec h))
  ∧ registrableDomain "a.apr.gov.rs" = some "apr.gov.rs"
  ∧ registrableDomain "example.com" = some "example.com"
  ∧ registrableDomain "foo.example.com" = some "example.com" := by
  refine ⟨?_, by decide, by decide, by decide⟩
  intro h hne
  simp only [registrableDomain, registrableDomainSpec, getLastD_eq_getD]
  rw [if_neg hne]
  split_ifs <;> rfl

/-- C7 witness: the equivalence applied at a concrete hostname. -/
theorem C7_registrableDomain_matches_spec_witness :
    registrableDomain "www.sub.example.co.rs"
      = some (registrableDomainSpec "www.sub.example.co.rs") :=
  C7_registrableDomain_matches_spec.1 "www.sub.example.co.rs" (by decide)

/-- C8: the transliteration functions of both directions are total Lean
functions (so the never-throws part of the claim holds by construction
of the embedding: the source body indexes a literal object and
concatenates, no operation that can throw), and they return the input
unchanged when no code unit of the input is a key of the respective
table — which covers the empty string, whitespace-only strings (no
whitespace character is a table key) and strings of digits, punctuation
and unmapped letters. -/
theorem C8_total_identity_on_unmapped :
    (∀ s : String, (∀ c ∈ s.data, lookupTable replace (String.mk [c]) = none) →
        transliterate s = s)
  ∧ (∀ s : String, (∀ c ∈ s.data, lookupTable replaceLatToCyr (String.mk [c]) = none) →
        transliterateToCyr s = s)
  ∧ (∀ s : String, (∀ c ∈ s.data, isJsWs c = true) →
        transliterate s = s ∧ transliterateToCyr s = s)
  ∧ transliterate "" = ""
  ∧ transliterateToCyr "" = "" := by
  refine ⟨transliterate_unmapped, transliterateToCyr_unmapped, ?_, rfl, rfl⟩
  intro s h
  exact ⟨transliterate_unmapped s (fun c hc => (ws_unmapped c (h c hc)).1),
         transliterateToCyr_unmapped s (fun c hc => (ws_unmapped c (h c hc)).2)⟩

/-- C8 witness: identity evaluated through the theorem at concrete
unmapped and whitespace-only inputs, for both directions. -/
theorem C8_total_identity_on_unmapped_witness :
    transliterate "3.14, ok!" = "3.14, ok!"
  ∧ transliterateToCyr "2024-10-11 :: 42" = "2024-10-11 :: 42"
  ∧ (transliterate " \t " = " \t " ∧ transliterateToCyr " \t " = " \t ") :=
  ⟨C8_total_identity_on_unmapped.1 "3.14, ok!" (by decide),
   C8_total_identity_on_unmapped.2.1 "2024-10-11 :: 42" (by decide),
   C8_total_identity_on_unmapped.2.2.1 " \t " (by decide)⟩

/-- C9: both transliteration functions are per-code-unit maps, so they
distribute over string concatenation: the output of every code unit is
independent of its neighbours. -/
theorem C9_concat_homomorphism :
    ∀ s t : String,
      transliterate (s ++ t) = transliterate s ++ transliterate t
    ∧ transliterateToCyr (s ++ t) = transliterateToCyr s ++ transliterateToCyr t := by
  intro s t
  constructor
  · rw [transliterate, transliterate, transliterate, String.data_append,
        List.map_append, joinAll_append]
  · rw [transliterateToCyr, transliterateToCyr, transliterateToCyr, String.data_append,
        List.map_append, joinAll_append]

/-- C10: for every hostname extraction, tab URL and stored rule map, the
upsert and remove operations change at most the entry at the registrable
domain of the tab URL hostname: the lookup of every other key in the
persisted enabledDomains map is unchanged by either operation. -/
theorem C10_frame_other_keys :
    ∀ (getHost : String → Option String) (tab : Option String)
      (desired : Option Direction) (rp g : Bool)
      (m : List (String × Rule)) (k : String),
      some k ≠ tabBase getHost tab →
        edLookup (upsertRuleForTab getHost tab desired rp g (StoredED.mapForm m)) k
            = jsLookup m k
      ∧ edLookup (removeRuleForTab getHost tab (StoredED.mapForm m)) k
            = jsLookup m k := by
  intro getHost tab desired rp g m k hk
  cases tab with
  | none => exact ⟨rfl, rfl⟩
  | some url =>
    by_cases hurl : url = ""
    · subst hurl
      simp [upsertRuleForTab, removeRuleForTab, edLookup, getEnabledMap]
    · cases hgh : getHost url with
      | none =>
        simp [upsertRuleForTab, removeRuleForTab, hurl, hgh, edLookup, getEnabledMap]
      | some hh =>
        cases hrd : registrableDomain hh with
        | none =>
          simp [upsertRuleForTab, removeRuleForTab, hurl, hgh, hrd, edLookup, getEnabledMap]
        | some b =>
          have hkb : k ≠ b := by
            intro he
            apply hk
            simp [tabBase, hurl, hgh, hrd, he]
          constructor
          · by_cases hrp : rp ∧ g = false
            · simp [upsertRuleForTab, hurl, hgh, hrd, hrp, edLookup, getEnabledMap]
            · simp [upsertRuleForTab, hurl, hgh, hrd, hrp, edLookup, getEnabledMap,
                setEnabledMap, jsLookup_jsSet_ne m b k _ hkb]
          · simp [removeRuleForTab, hurl, hgh, hrd, edLookup, getEnabledMap,
              setEnabledMap, jsLookup_jsDelete_ne m b k hkb]

/-- C10 witness: the frame property applied at a concrete tab URL, rule
map and unrelated key. -/
theorem C10_frame_other_keys_witness :
    edLookup (upsertRuleForTab
        (fun u => if u = "https://news.primer.rs/x" then some "news.primer.rs" else none)
        (some "https://news.primer.rs/x") (some Direction.cyr_to_lat) false false
        (StoredED.mapForm [("other.rs", ⟨Direction.lat_to_cyr⟩)])) "other.rs"
      = jsLookup [("other.rs", (⟨Direction.lat_to_cyr⟩ : Rule))] "other.rs"
  ∧ edLookup (removeRuleForTab
        (fun u => if u = "https://news.primer.rs/x" then some "news.primer.rs" else none)
        (some "https://news.primer.rs/x")
        (StoredED.mapForm [("other.rs", ⟨Direction.lat_to_cyr⟩)])) "other.rs"
      = jsLookup [("other.rs", (⟨Direction.lat_to_cyr⟩ : Rule))] "other.rs" :=
  C10_frame_other_keys
    (fun u => if u = "https://news.primer.rs/x" then some "news.primer.rs" else none)
    (some "https://news.primer.rs/x") (some Direction.cyr_to_lat) false false
    [("other.rs", ⟨Direction.lat_to_cyr⟩)] "other.rs" (by decide)

end SrbTranslit
